import Mathlib

/-!
Shallow embedding of the Borislavv/logger repository (Go), package
`pkg/logger` (file `logrus.go`) together with its configuration surface
(`pkg/logger/config`).  Pure functions of the source become Lean
functions; the channel/goroutine machinery of the async engine becomes an
explicit labelled transition system; filesystem effects of the output
resolver become a record of the actions the code performs on an abstract
filesystem state.
-/

namespace Logger

/-- Values stored in log fields.  Go's `map[string]interface{}` carries
arbitrary values; the claims only need values that can be compared, so a
small closed universe of string and integer values represents them. -/
inductive Value where
  | str (s : String)
  | int (n : Int)
  deriving DecidableEq, Repr

/-- A field map (`logrus.Fields`, i.e. Go `map[string]interface{}`),
modelled as an association list read through `getField`, where the most
recent write to a key wins. -/
abbrev Fields := List (String × Value)

/-- Go map assignment `fields[k] = v`: the new binding is appended and
`getField` gives later bindings precedence. -/
def setField (fs : Fields) (k : String) (v : Value) : Fields :=
  fs ++ [(k, v)]

/-- Go map lookup: the last binding for the key, if any. -/
def getField : Fields → String → Option Value
  | [], _ => none
  | (k', v) :: rest, k =>
    match getField rest k with
    | some w => some w
    | none => if k' = k then some v else none

/-- First-defined choice between two optional values (used to state
merge precedence: the left argument is the higher-precedence source). -/
def firstSome (a b : Option Value) : Option Value :=
  match a with
  | some v => some v
  | none => b

/-- Model of `logrus.Entry.WithFields` chaining: `withFields base extra`
adds every binding of `extra` on top of `base`, overwriting existing keys
(the later source wins on collision). -/
def withFields (base extra : Fields) : Fields :=
  extra.foldl (fun acc p => setField acc p.1 p.2) base

/-- Model of Go's `context.Context` as a read-only key/value lookup:
`ctx k` is `ctx.Value(k)`, with `none` playing the role of `nil`. -/
abbrev Ctx := String → Option Value

/-- Model of a Go `error` value by its textual representation:
`err.Error()` is the string itself. -/
abbrev GoError := String

/-! Level and name constants.  Modelled from the spec: the `loggerenum`
package of this repository is not part of the given sources; the spec
fixes severities `debug|info|warning|error|fatal|panic`, outputs
`stdout|stderr|/dev/null`, and formats `text|json`. -/

/-- Modelled from the spec: `loggerenum.DebugLvl`. -/
def DebugLvl : String := "debug"

/-- Modelled from the spec: `loggerenum.InfoLvl`. -/
def InfoLvl : String := "info"

/-- Modelled from the spec: `loggerenum.WarningLvl`. -/
def WarningLvl : String := "warning"

/-- Modelled from the spec: `loggerenum.ErrorLvl`. -/
def ErrorLvl : String := "error"

/-- Modelled from the spec: `loggerenum.FatalLvl`. -/
def FatalLvl : String := "fatal"

/-- Modelled from the spec: `loggerenum.PanicLvl`. -/
def PanicLvl : String := "panic"

/-- Modelled from the spec: `loggerenum.Stdout`. -/
def Stdout : String := "stdout"

/-- Modelled from the spec: `loggerenum.Stderr`. -/
def Stderr : String := "stderr"

/-- Modelled from the spec: `loggerenum.DevNull`. -/
def DevNull : String := "/dev/null"

/-- Modelled from the spec: `loggerenum.TextFormat`. -/
def TextFormat : String := "text"

/-- The log levels of the external `logrus` library that `getLevel`
selects among. -/
inductive LogrusLevel where
  | panicLevel
  | fatalLevel
  | errorLevel
  | warnLevel
  | infoLevel
  | debugLevel
  deriving DecidableEq, Repr

/-- The two formatters `getFormat` selects among. -/
inductive LogrusFormatter where
  | textFormatter
  | jsonFormatter
  deriving DecidableEq, Repr

/-- The configuration data (`config.Config` in `pkg/logger/config`).
`BufferCapacity` is a Go `int`; it is modelled as `Nat` because a
negative capacity makes `make(chan, n)` fail at construction and is
outside the model. -/
structure Config where
  BufferCapacity : Nat
  Level : String
  Output : String
  Formatter : String
  LogsDir : String
  ContextExtraFields : List String

/-- Accessor `Config.GetBufferCapacity`. -/
def Config.GetBufferCapacity (c : Config) : Nat := c.BufferCapacity

/-- Accessor `Config.GetLoggerLevel`. -/
def Config.GetLoggerLevel (c : Config) : String := c.Level

/-- Accessor `Config.GetLoggerOutput`. -/
def Config.GetLoggerOutput (c : Config) : String := c.Output

/-- Accessor `Config.GetLoggerFormatter`. -/
def Config.GetLoggerFormatter (c : Config) : String := c.Formatter

/-- Accessor `Config.GetLoggerLogsDir`. -/
def Config.GetLoggerLogsDir (c : Config) : String := c.LogsDir

/-- Accessor `Config.GetLoggerContextExtraFields`. -/
def Config.GetLoggerContextExtraFields (c : Config) : List String :=
  c.ContextExtraFields

/-- Call-site metadata of a record.  Modelled from the spec: the
`loggerdto` package is not part of the given sources; the spec says a
record captures function name, file and line at construction. -/
structure CallSite where
  function : String
  file : String
  line : Nat
  deriving DecidableEq, Repr

/-- Modelled from the spec: `CallerFields()` of a record renders the
call-site metadata as a field map with the function, file and line
entries. -/
def callerFields (cs : CallSite) : Fields :=
  [("function", Value.str cs.function),
   ("file", Value.str cs.file),
   ("line", Value.int (Int.ofNat cs.line))]

/-- Modelled from the spec: `loggerdto.MsgDto`, a message record carrying
the context snapshot, a severity name, the message text, the explicit
field map and the call-site metadata. -/
structure MsgDto where
  Ctx : Ctx
  Level : String
  Msg : String
  Fields : Fields
  CallSite : CallSite

/-- Modelled from the spec: `loggerdto.NewMsg` constructs a message
record.  The call site, captured by the Go runtime at the call, is an
explicit argument here. -/
def NewMsg (ctx : Ctx) (level msg : String) (fields : Fields)
    (cs : CallSite) : MsgDto :=
  ⟨ctx, level, msg, fields, cs⟩

/-- Modelled from the spec: `loggerdto.ErrDto`, an error record; same
shape as `MsgDto` with an error value as payload. -/
structure ErrDto where
  Ctx : Ctx
  Level : String
  Err : GoError
  Fields : Fields
  CallSite : CallSite

/-- Modelled from the spec: `loggerdto.NewErr` constructs an error
record. -/
def NewErr (ctx : Ctx) (level : String) (err : GoError) (fields : Fields)
    (cs : CallSite) : ErrDto :=
  ⟨ctx, level, err, fields, cs⟩

/-- The engine state that `NewLogrus` builds (`logrus.go` lines 19-24
and 41-61): the configured context extra fields, the level and formatter
installed on the underlying logrus logger, and the capacities of the two
channels created at lines 48-49. -/
structure Logrus where
  contextExtraFields : List String
  level : LogrusLevel
  formatter : LogrusFormatter
  msgCap : Nat
  errCap : Nat

/-- Function `getLevel` (`logrus.go` lines 195-210): maps a severity name to a
logrus level, defaulting to debug.  The Go receiver is unused by the
body and omitted. -/
def getLevel (level : String) : LogrusLevel :=
  if level = InfoLvl then LogrusLevel.infoLevel
  else if level = WarningLvl then LogrusLevel.warnLevel
  else if level = ErrorLvl then LogrusLevel.errorLevel
  else if level = FatalLvl then LogrusLevel.fatalLevel
  else if level = PanicLvl then LogrusLevel.panicLevel
  else LogrusLevel.debugLevel

/-- Function `getFormat` (`logrus.go` lines 212-219): text formatter for
`"text"`, JSON otherwise. -/
def getFormat (formatter : String) : LogrusFormatter :=
  if formatter = TextFormat then LogrusFormatter.textFormatter
  else LogrusFormatter.jsonFormatter

/-- Method `fieldsFromContext` (`logrus.go` lines 147-157): for each configured
context extra field, copy the context value under the same key when it
is non-nil. -/
def Logrus.fieldsFromContext (l : Logrus) (ctx : Ctx) : Fields :=
  l.contextExtraFields.foldl
    (fun fields field =>
      match ctx field with
      | some value => setField fields field value
      | none => fields)
    []

/-- One call into the external writer: the level passed to
`logrus.Log`, the message string, and the fully merged field map. -/
structure WriterCall where
  level : LogrusLevel
  msg : String
  fields : Fields
  deriving Repr

/-- The body of the `handleMessages` drain loop (`logrus.go` lines
77-81): merge explicit fields, then context fields, then caller fields,
and log the message text at the record's level. -/
def writerCallOfMsg (l : Logrus) (m : MsgDto) : WriterCall :=
  ⟨getLevel m.Level, m.Msg,
   withFields (withFields m.Fields (l.fieldsFromContext m.Ctx))
     (callerFields m.CallSite)⟩

/-- The body of the `handleErrors` drain loop (`logrus.go` lines 66-70):
same merge, with `err.Err.Error()` as the message text. -/
def writerCallOfErr (l : Logrus) (e : ErrDto) : WriterCall :=
  ⟨getLevel e.Level, e.Err,
   withFields (withFields e.Fields (l.fieldsFromContext e.Ctx))
     (callerFields e.CallSite)⟩

/-- Result of `NewLogrus` (`logrus.go` lines 41-61): the engine value
and the construction error slot of the returned triple (the cancel
function is modelled by the shutdown events of the transition system
below). -/
structure NewLogrusResult where
  logger : Logrus
  err : Option GoError

/-- Constructor `NewLogrus` (`logrus.go` lines 41-61): builds the engine from the
configuration, creating both channels with the configured buffer
capacity, and returns with a nil error on its only return path. -/
def NewLogrus (cfg : Config) : NewLogrusResult :=
  { logger :=
      { contextExtraFields := cfg.GetLoggerContextExtraFields
        level := getLevel cfg.GetLoggerLevel
        formatter := getFormat cfg.GetLoggerFormatter
        msgCap := cfg.GetBufferCapacity
        errCap := cfg.GetBufferCapacity }
    err := none }

/-! Producer operations (`logrus.go` lines 85-145).  Each operation
constructs a record and sends it on a channel; the pure embedding
returns the record sent (the transition system below accounts for the
send itself).  The six error-form fixed-severity operations also return
the caller's error; `Log` and the message-form operations return
nothing beyond the enqueued record. -/

/-- Producer operation `Logrus.DebugMsg` (line 85). -/
def Logrus.DebugMsg (ctx : Ctx) (msg : String) (fields : Fields)
    (cs : CallSite) : MsgDto :=
  NewMsg ctx DebugLvl msg fields cs

/-- Producer operation `Logrus.InfoMsg` (line 89). -/
def Logrus.InfoMsg (ctx : Ctx) (msg : String) (fields : Fields)
    (cs : CallSite) : MsgDto :=
  NewMsg ctx InfoLvl msg fields cs

/-- Producer operation `Logrus.WarningMsg` (line 93). -/
def Logrus.WarningMsg (ctx : Ctx) (msg : String) (fields : Fields)
    (cs : CallSite) : MsgDto :=
  NewMsg ctx WarningLvl msg fields cs

/-- Producer operation `Logrus.ErrorMsg` (line 97). -/
def Logrus.ErrorMsg (ctx : Ctx) (msg : String) (fields : Fields)
    (cs : CallSite) : MsgDto :=
  NewMsg ctx ErrorLvl msg fields cs

/-- Producer operation `Logrus.FatalMsg` (line 101). -/
def Logrus.FatalMsg (ctx : Ctx) (msg : String) (fields : Fields)
    (cs : CallSite) : MsgDto :=
  NewMsg ctx FatalLvl msg fields cs

/-- Producer operation `Logrus.PanicMsg` (line 105). -/
def Logrus.PanicMsg (ctx : Ctx) (msg : String) (fields : Fields)
    (cs : CallSite) : MsgDto :=
  NewMsg ctx PanicLvl msg fields cs

/-- Producer operation `Logrus.LogMsg` (line 109). -/
def Logrus.LogMsg (ctx : Ctx) (msg level : String) (fields : Fields)
    (cs : CallSite) : MsgDto :=
  NewMsg ctx level msg fields cs

/-- Producer operation `Logrus.Debug` (lines 113-116): enqueues and returns the caller's
error. -/
def Logrus.Debug (ctx : Ctx) (err : GoError) (fields : Fields)
    (cs : CallSite) : ErrDto × GoError :=
  (NewErr ctx DebugLvl err fields cs, err)

/-- Producer operation `Logrus.Info` (lines 118-121). -/
def Logrus.Info (ctx : Ctx) (err : GoError) (fields : Fields)
    (cs : CallSite) : ErrDto × GoError :=
  (NewErr ctx InfoLvl err fields cs, err)

/-- Producer operation `Logrus.Warning` (lines 123-126). -/
def Logrus.Warning (ctx : Ctx) (err : GoError) (fields : Fields)
    (cs : CallSite) : ErrDto × GoError :=
  (NewErr ctx WarningLvl err fields cs, err)

/-- Producer operation `Logrus.Error` (lines 128-131). -/
def Logrus.Error (ctx : Ctx) (err : GoError) (fields : Fields)
    (cs : CallSite) : ErrDto × GoError :=
  (NewErr ctx ErrorLvl err fields cs, err)

/-- Producer operation `Logrus.Fatal` (lines 133-136). -/
def Logrus.Fatal (ctx : Ctx) (err : GoError) (fields : Fields)
    (cs : CallSite) : ErrDto × GoError :=
  (NewErr ctx FatalLvl err fields cs, err)

/-- Producer operation `Logrus.Panic` (lines 138-141). -/
def Logrus.Panic (ctx : Ctx) (err : GoError) (fields : Fields)
    (cs : CallSite) : ErrDto × GoError :=
  (NewErr ctx PanicLvl err fields cs, err)

/-- Producer operation `Logrus.Log` (lines 143-145): enqueues the error record and returns
nothing (the Go signature has no result). -/
def Logrus.Log (ctx : Ctx) (err : GoError) (level : String)
    (fields : Fields) (cs : CallSite) : ErrDto :=
  NewErr ctx level err fields cs

/-- Transcription of the Go signatures of the error-form producer
operations (`logrus.go` lines 113-145): whether the operation declares
an `error` return value.  The six fixed-severity methods do; `Log`
does not. -/
def errorFormReturnsError : String → Bool
  | "Debug" => true
  | "Info" => true
  | "Warning" => true
  | "Error" => true
  | "Fatal" => true
  | "Panic" => true
  | _ => false

/-! Output resolution (`getOutput`, `logrus.go` lines 159-193).  The
filesystem is abstracted to a working directory and a set of existing
directories; the result records which handle is returned and which
filesystem actions (`MkdirAll`, `OpenFile`) the code performs on its
happy path. -/

/-- Whether `needle` is an initial segment of `hay` (character lists). -/
def leadsList : List Char → List Char → Bool
  | [], _ => true
  | _ :: _, [] => false
  | a :: as, b :: bs => a == b && leadsList as bs

/-- Whether `needle` occurs contiguously inside `hay` (character
lists). -/
def hasSubList (hay needle : List Char) : Bool :=
  match hay with
  | [] => needle.isEmpty
  | _ :: t => leadsList needle hay || hasSubList t needle

/-- Go `strings.Contains(s, sub)`: reports whether `sub` is within
`s`. -/
def strContains (s sub : String) : Bool :=
  hasSubList s.toList sub.toList

/-- Go `filepath.Join` on two elements, for already-clean paths (the
additional `Clean` step of the Go function is the identity on the paths
the resolver builds). -/
def goJoin (a b : String) : String :=
  if a = "" then b else if b = "" then a else a ++ "/" ++ b

/-- Split a character list on `'/'` (Go `strings.Split` on `"/"`). -/
def splitSlash : List Char → List (List Char)
  | [] => [[]]
  | c :: rest =>
    match splitSlash rest with
    | [] => [[]]
    | seg :: segs =>
      if c = '/' then [] :: seg :: segs else (c :: seg) :: segs

/-- Join path elements with `'/'` separators. -/
def joinSlash : List String → String
  | [] => ""
  | [a] => a
  | a :: b :: rest => a ++ "/" ++ joinSlash (b :: rest)

/-- Go `filepath.Dir`, for already-clean paths: everything but the last
path element, `"."` when there is no slash, `"/"` for a direct child of
the root. -/
def goDir (p : String) : String :=
  let parts := (splitSlash p.toList).map (fun cs => String.mk cs)
  if parts.length ≤ 1 then "."
  else
    let d := joinSlash parts.dropLast
    if d = "" then "/" else d

/-- The handle `getOutput` returns: one of the two standard streams or
an opened file. -/
inductive SinkHandle where
  | stdoutHandle
  | stderrHandle
  | fileHandle (path : String)
  deriving DecidableEq, Repr

/-- Flags of an `os.OpenFile` call, with the permission bits. -/
structure OpenFlags where
  wronly : Bool
  create : Bool
  append : Bool
  rdwr : Bool
  perm : Nat
  deriving DecidableEq, Repr

/-- The flags of the `/dev/null` open: `O_WRONLY`, permission `0644`
(420). -/
def devNullFlags : OpenFlags :=
  { wronly := true, create := false, append := false, rdwr := false
    perm := 420 }

/-- The flags of the log-file open: `O_CREATE|O_APPEND|O_RDWR`,
permission `0666` (438). -/
def logFileFlags : OpenFlags :=
  { wronly := false, create := true, append := true, rdwr := true
    perm := 438 }

/-- Abstract filesystem state seen by `getOutput`: the working directory
(`os.Getwd`) and the directories that already exist (those for which
`os.ReadDir` succeeds). -/
structure FS where
  cwd : String
  existingDirs : List String

/-- What a `getOutput` call returns and does: the handle, the
`os.OpenFile` call made (path and flags) if any, the `os.MkdirAll` call
made (path and permission `0755` = 493) if any, and the error slot of
the Go result. -/
structure OutputResult where
  sink : SinkHandle
  opened : Option (String × OpenFlags)
  mkdirAll : Option (String × Nat)
  err : Option GoError
  deriving DecidableEq, Repr

/-- Resolver `getOutput` (`logrus.go` lines 159-193) on its happy path (free
of OS failures): reserved names select the standard streams or the
`/dev/null` open; any other name joins the logs directory under the
working directory, appends `"app.log"` unless the *swapped* containment
check `strings.Contains(".", path)` fires, creates the parent directory
when it does not exist, and opens the file. -/
def getOutput (output logsDir : String) (fs : FS) : OutputResult :=
  if output = Stdout then
    { sink := SinkHandle.stdoutHandle, opened := none, mkdirAll := none
      err := none }
  else if output = Stderr then
    { sink := SinkHandle.stderrHandle, opened := none, mkdirAll := none
      err := none }
  else if output = DevNull ∨ output = "" then
    { sink := SinkHandle.fileHandle DevNull
      opened := some (DevNull, devNullFlags), mkdirAll := none
      err := none }
  else
    let path0 := goJoin fs.cwd logsDir
    let path :=
      if !strContains "." path0 then goJoin path0 "app.log" else path0
    let dir := goDir path
    { sink := SinkHandle.fileHandle path
      opened := some (path, logFileFlags)
      mkdirAll :=
        if dir ∈ fs.existingDirs then none else some (dir, 493)
      err := none }

/-! The concurrent behaviour of the engine — producers sending on the
two bounded channels, the two drain goroutines (`handleMessages`,
`handleErrors`), and the cancel function returned by `NewLogrus`
(`close(msgCh); close(errCh); wg.Wait()`) — is embedded as a labelled
transition system over an explicit engine state.  Go buffered-channel
semantics: a send is enabled only while the buffer holds fewer than
`cap` elements and the channel is open; a receive takes the oldest
element; `range` over a closed channel terminates once the buffer is
empty, which is when each worker's deferred `wg.Done()` runs; `Wait`
returns once both workers are done. -/

/-- Transition labels of the engine. -/
inductive Ev where
  | enqMsg (m : MsgDto)
  | enqErr (e : ErrDto)
  | drainMsg
  | drainErr
  | closeQueues
  | msgLoopExit
  | errLoopExit
  | waitReturn

/-- Engine runtime state: the two channel buffers, whether the cancel
function has closed the channels, whether each drain loop has run its
deferred `wg.Done()`, whether `wg.Wait()` has returned, the sequences of
writer calls each drain loop has made, and (ghost, for specification)
the sequences of records whose sends completed, in completion order. -/
structure EngineSt where
  msgQ : List MsgDto
  errQ : List ErrDto
  closed : Bool
  msgLoopDone : Bool
  errLoopDone : Bool
  waitReturned : Bool
  writtenMsgs : List WriterCall
  writtenErrs : List WriterCall
  enqMsgs : List MsgDto
  enqErrs : List ErrDto

/-- The state right after `NewLogrus` returns: empty buffers, channels
open, both workers running, nothing written. -/
def initSt : EngineSt :=
  { msgQ := [], errQ := [], closed := false, msgLoopDone := false
    errLoopDone := false, waitReturned := false, writtenMsgs := []
    writtenErrs := [], enqMsgs := [], enqErrs := [] }

/-- One step of the engine with buffer capacity `cap` and engine value
`l`.  Send steps are enabled only on an open, non-full channel (a
producer whose channel is full or closed stays blocked or faults, and
takes no step); drain steps consume the head of a buffer and perform the
corresponding drain-loop body; exit steps are the workers observing a
closed, empty channel and running `wg.Done()`; `waitReturn` is
`wg.Wait()` returning after both `Done` calls. -/
inductive EngineStep (cap : Nat) (l : Logrus) :
    EngineSt → Ev → EngineSt → Prop where
  | enqMsg (s : EngineSt) (m : MsgDto)
      (hopen : s.closed = false) (hroom : s.msgQ.length < cap) :
      EngineStep cap l s (Ev.enqMsg m)
        { s with msgQ := s.msgQ ++ [m], enqMsgs := s.enqMsgs ++ [m] }
  | enqErr (s : EngineSt) (e : ErrDto)
      (hopen : s.closed = false) (hroom : s.errQ.length < cap) :
      EngineStep cap l s (Ev.enqErr e)
        { s with errQ := s.errQ ++ [e], enqErrs := s.enqErrs ++ [e] }
  | drainMsg (s : EngineSt) (m : MsgDto) (rest : List MsgDto)
      (hq : s.msgQ = m :: rest) :
      EngineStep cap l s Ev.drainMsg
        { s with msgQ := rest
                 writtenMsgs := s.writtenMsgs ++ [writerCallOfMsg l m] }
  | drainErr (s : EngineSt) (e : ErrDto) (rest : List ErrDto)
      (hq : s.errQ = e :: rest) :
      EngineStep cap l s Ev.drainErr
        { s with errQ := rest
                 writtenErrs := s.writtenErrs ++ [writerCallOfErr l e] }
  | closeQueues (s : EngineSt) (hopen : s.closed = false) :
      EngineStep cap l s Ev.closeQueues { s with closed := true }
  | msgLoopExit (s : EngineSt) (hclosed : s.closed = true)
      (hempty : s.msgQ = []) (hrun : s.msgLoopDone = false) :
      EngineStep cap l s Ev.msgLoopExit { s with msgLoopDone := true }
  | errLoopExit (s : EngineSt) (hclosed : s.closed = true)
      (hempty : s.errQ = []) (hrun : s.errLoopDone = false) :
      EngineStep cap l s Ev.errLoopExit { s with errLoopDone := true }
  | waitReturn (s : EngineSt) (hmsg : s.msgLoopDone = true)
      (herr : s.errLoopDone = true) :
      EngineStep cap l s Ev.waitReturn { s with waitReturned := true }

/-- States reachable from the post-construction state. -/
inductive Reachable (cap : Nat) (l : Logrus) : EngineSt → Prop where
  | init : Reachable cap l initSt
  | step {s s' : EngineSt} {ev : Ev} (hr : Reachable cap l s)
      (hs : EngineStep cap l s ev s') : Reachable cap l s'

/-- The engine invariant: each drain loop has written exactly the
completed sends of its queue minus what is still buffered, in order;
a finished loop saw a closed, empty queue; `Wait` returned only after
both loops finished; buffers never exceed the capacity. -/
def EngineInv (cap : Nat) (l : Logrus) (s : EngineSt) : Prop :=
  s.writtenMsgs ++ s.msgQ.map (writerCallOfMsg l)
      = s.enqMsgs.map (writerCallOfMsg l)
  ∧ s.writtenErrs ++ s.errQ.map (writerCallOfErr l)
      = s.enqErrs.map (writerCallOfErr l)
  ∧ (s.msgLoopDone = true → s.closed = true ∧ s.msgQ = [])
  ∧ (s.errLoopDone = true → s.closed = true ∧ s.errQ = [])
  ∧ (s.waitReturned = true → s.msgLoopDone = true ∧ s.errLoopDone = true)
  ∧ s.msgQ.length ≤ cap ∧ s.errQ.length ≤ cap

theorem reachable_inv {cap : Nat} {l : Logrus} {s : EngineSt}
    (hr : Reachable cap l s) : EngineInv cap l s := by
  induction hr with
  | init =>
    refine ⟨rfl, rfl, ?_, ?_, ?_, ?_, ?_⟩ <;> simp [initSt]
  | step hr hs ih =>
    obtain ⟨hm, he, hmd, hed, hw, hmc, hec⟩ := ih
    cases hs with
    | enqMsg m hopen hroom =>
      refine ⟨?_, he, ?_, ?_, hw, ?_, hec⟩
      · simp only [List.map_append, List.map_cons, List.map_nil,
          ← List.append_assoc, hm]
      · intro hd
        simp only at hd
        exact absurd (hmd hd).1 (by simp [hopen])
      · intro hd
        simp only at hd
        exact hed hd
      · simpa using hroom
    | enqErr e hopen hroom =>
      refine ⟨hm, ?_, ?_, ?_, hw, hmc, ?_⟩
      · simp only [List.map_append, List.map_cons, List.map_nil,
          ← List.append_assoc, he]
      · intro hd
        simp only at hd
        exact hmd hd
      · intro hd
        simp only at hd
        exact absurd (hed hd).1 (by simp [hopen])
      · simpa using hroom
    | drainMsg m rest hq =>
      refine ⟨?_, he, ?_, ?_, hw, ?_, hec⟩
      · simpa [hq, List.append_assoc] using hm
      · intro hd
        simp only at hd
        exact absurd hq (by simp [(hmd hd).2])
      · intro hd
        simp only at hd
        exact hed hd
      · have := hmc
        simp only [hq, List.length_cons] at this
        simp only [List.length_cons]
        omega
    | drainErr e rest hq =>
      refine ⟨hm, ?_, ?_, ?_, hw, hmc, ?_⟩
      · simpa [hq, List.append_assoc] using he
      · intro hd
        simp only at hd
        exact hmd hd
      · intro hd
        simp only at hd
        exact absurd hq (by simp [(hed hd).2])
      · have := hec
        simp only [hq, List.length_cons] at this
        simp only [List.length_cons]
        omega
    | closeQueues hopen =>
      exact ⟨hm, he, fun hd => ⟨rfl, (hmd hd).2⟩,
        fun hd => ⟨rfl, (hed hd).2⟩, hw, hmc, hec⟩
    | msgLoopExit hclosed hempty hrun =>
      refine ⟨hm, he, fun _ => ⟨hclosed, hempty⟩, ?_, ?_, hmc, hec⟩
      · intro hd
        simp only at hd
        exact hed hd
      · intro hwr
        simp only at hwr
        exact ⟨rfl, (hw hwr).2⟩
    | errLoopExit hclosed hempty hrun =>
      refine ⟨hm, he, ?_, fun _ => ⟨hclosed, hempty⟩, ?_, hmc, hec⟩
      · intro hd
        simp only at hd
        exact hmd hd
      · intro hwr
        simp only at hwr
        exact ⟨(hw hwr).1, rfl⟩
    | waitReturn hmsg herr =>
      exact ⟨hm, he, hmd, hed, fun _ => ⟨hmsg, herr⟩, hmc, hec⟩

/-! Lemmas about the field-map model. -/

theorem getField_setField (fs : Fields) (k k' : String) (v : Value) :
    getField (setField fs k v) k'
      = if k = k' then some v else getField fs k' := by
  induction fs with
  | nil =>
    by_cases h : k = k' <;> simp [setField, getField, h]
  | cons p rest ih =>
    obtain ⟨pk, pv⟩ := p
    have hstep : getField (setField ((pk, pv) :: rest) k v) k'
        = match getField (setField rest k v) k' with
          | some w => some w
          | none => if pk = k' then some pv else none := rfl
    rw [hstep, ih]
    by_cases h : k = k'
    · simp [h]
    · simp only [h, if_false]
      exact rfl

theorem getField_withFields (a b : Fields) (k : String) :
    getField (withFields a b) k
      = firstSome (getField b k) (getField a k) := by
  induction b generalizing a with
  | nil => simp [withFields, getField, firstSome]
  | cons p rest ih =>
    obtain ⟨pk, pv⟩ := p
    simp only [withFields, List.foldl_cons] at ih ⊢
    rw [ih (setField a pk pv)]
    simp only [getField, getField_setField]
    cases hr : getField rest k with
    | some w => simp [firstSome]
    | none =>
      by_cases h : pk = k <;> simp [firstSome, h]

theorem getField_ctxFold (ctx : Ctx) (k : String) (l : List String) :
    ∀ fs : Fields,
      getField
          (l.foldl
            (fun fields field =>
              match ctx field with
              | some value => setField fields field value
              | none => fields)
            fs) k
        = firstSome (if k ∈ l then ctx k else none) (getField fs k) := by
  induction l with
  | nil => intro fs; simp [firstSome]
  | cons f rest ih =>
    intro fs
    simp only [List.foldl_cons]
    rw [ih]
    by_cases hmem : k ∈ rest
    · cases hk : ctx k with
      | some v => simp [hmem, hk, List.mem_cons, firstSome]
      | none =>
        simp only [hmem, if_pos, hk, List.mem_cons, or_true, if_pos]
        cases hf : ctx f with
        | some v =>
          by_cases hfk : f = k
          · rw [hfk] at hf
            rw [hf] at hk
            exact absurd hk (by simp)
          · simp [getField_setField, hfk]
        | none => rfl
    · by_cases hfk : f = k
      · have hk : (k ∈ f :: rest) = True := by simp [hfk]
        cases hf : ctx f with
        | some v =>
          subst hfk
          simp [hf, getField_setField, firstSome, hmem]
        | none =>
          subst hfk
          simp [hf, hmem, firstSome]
      · have hnot : ¬ k ∈ f :: rest := by
          simp [List.mem_cons]
          exact ⟨fun h => absurd h.symm hfk, hmem⟩
        cases hf : ctx f with
        | some v => simp [hmem, hnot, getField_setField, hfk, firstSome]
        | none => simp [hmem, hnot, firstSome]

/-- Characterization of `fieldsFromContext`: the extracted map holds
exactly the configured keys whose context value is non-nil, bound to the
context's value. -/
theorem getField_fieldsFromContext (l : Logrus) (ctx : Ctx) (k : String) :
    getField (l.fieldsFromContext ctx) k
      = if k ∈ l.contextExtraFields then ctx k else none := by
  unfold Logrus.fieldsFromContext
  rw [getField_ctxFold]
  cases h : (if k ∈ l.contextExtraFields then ctx k else none) with
  | some v => simp [firstSome, h]
  | none => simp [firstSome, getField]

/-! Lemmas about the path helpers: joining under an absolute working
directory keeps the leading slash, and the swapped containment check
`strings.Contains(".", path)` is false for every path that starts with
a slash. -/

theorem goJoin_head (a b : String) (h : a.toList.head? = some '/') :
    (goJoin a b).toList.head? = some '/' := by
  have ha : ¬ a = "" := by
    intro he
    rw [he] at h
    exact absurd h (by decide)
  unfold goJoin
  rw [if_neg ha]
  by_cases hb : b = ""
  · rw [if_pos hb]
    exact h
  · rw [if_neg hb]
    cases hal : a.toList with
    | nil =>
      rw [hal] at h
      exact absurd h (by simp)
    | cons c t =>
      rw [hal] at h
      have hdata : (a ++ "/" ++ b).toList
          = a.toList ++ "/".toList ++ b.toList := by
        simp [String.toList, String.data_append]
      rw [hdata, hal]
      simpa using h

theorem strContains_dot_eq_false (s : String)
    (h : s.toList.head? = some '/') : strContains "." s = false := by
  cases hsl : s.toList with
  | nil =>
    rw [hsl] at h
    exact absurd h (by simp)
  | cons c t =>
    rw [hsl] at h
    have hc : c = '/' := by
      simpa using h
    subst hc
    have hdot : ".".toList = ['.'] := rfl
    have hne : (('/' : Char) == '.') = false := by decide
    have hdata : s.data = '/' :: t := hsl
    simp [strContains, hdot, hasSubList, leadsList, hdata, hne]

/-! Concrete instances used to exercise the theorems. -/

/-- A concrete empty context. -/
def ctxC : Ctx := fun _ => none

/-- A concrete call site. -/
def csC : CallSite := ⟨"main.run", "main.go", 42⟩

/-- A concrete engine value with capacity 1 and no extra context
fields. -/
def lC : Logrus :=
  ⟨[], LogrusLevel.debugLevel, LogrusFormatter.jsonFormatter, 1, 1⟩

/-- A concrete configuration with buffer capacity 1. -/
def cfgC : Config := ⟨1, "debug", "stdout", "json", "var/log", []⟩

/-- A concrete message record. -/
def mC : MsgDto := NewMsg ctxC InfoLvl "hello" [] csC

/-- A concrete error record. -/
def eC : ErrDto := NewErr ctxC ErrorLvl "boom" [] csC

/-- A state whose message queue is at capacity 1. -/
def fullSt : EngineSt := { initSt with msgQ := [mC], enqMsgs := [mC] }

/-- The state of a complete run with capacity 1: one message and one
error enqueued, drained, channels closed, both loops exited, wait
returned. -/
def finalSt : EngineSt :=
  { msgQ := [], errQ := [], closed := true, msgLoopDone := true
    errLoopDone := true, waitReturned := true
    writtenMsgs := [writerCallOfMsg lC mC]
    writtenErrs := [writerCallOfErr lC eC]
    enqMsgs := [mC], enqErrs := [eC] }

theorem finalSt_reachable : Reachable 1 lC finalSt := by
  have h0 : Reachable 1 lC initSt := Reachable.init
  have h1 : Reachable 1 lC
      ⟨[mC], [], false, false, false, false, [], [], [mC], []⟩ :=
    Reachable.step h0 (EngineStep.enqMsg initSt mC rfl (by decide))
  have h2 : Reachable 1 lC
      ⟨[mC], [eC], false, false, false, false, [], [], [mC], [eC]⟩ :=
    Reachable.step h1 (EngineStep.enqErr _ eC rfl (by decide))
  have h3 : Reachable 1 lC
      ⟨[mC], [eC], true, false, false, false, [], [], [mC], [eC]⟩ :=
    Reachable.step h2 (EngineStep.closeQueues _ rfl)
  have h4 : Reachable 1 lC
      ⟨[], [eC], true, false, false, false, [writerCallOfMsg lC mC], [],
        [mC], [eC]⟩ :=
    Reachable.step h3 (EngineStep.drainMsg _ mC [] rfl)
  have h5 : Reachable 1 lC
      ⟨[], [], true, false, false, false, [writerCallOfMsg lC mC],
        [writerCallOfErr lC eC], [mC], [eC]⟩ :=
    Reachable.step h4 (EngineStep.drainErr _ eC [] rfl)
  have h6 : Reachable 1 lC
      ⟨[], [], true, true, false, false, [writerCallOfMsg lC mC],
        [writerCallOfErr lC eC], [mC], [eC]⟩ :=
    Reachable.step h5 (EngineStep.msgLoopExit _ rfl rfl rfl)
  have h7 : Reachable 1 lC
      ⟨[], [], true, true, true, false, [writerCallOfMsg lC mC],
        [writerCallOfErr lC eC], [mC], [eC]⟩ :=
    Reachable.step h6 (EngineStep.errLoopExit _ rfl rfl rfl)
  exact Reachable.step h7 (EngineStep.waitReturn _ rfl rfl)

/-! The claim theorems. -/

/-- C1: every record whose enqueue completes before the shutdown signal
is delivered to the external writer exactly once, and the shutdown wait
returns only after both drain loops observed queue closure and wrote
every remaining buffered record: in any reachable state where `Wait`
has returned, both loops are done, both buffers are empty, and each
queue's writer-call sequence is exactly the sequence of completed
enqueues of that queue, element for element. -/
theorem c1_shutdown_delivers_all {cap : Nat} {l : Logrus} {s : EngineSt}
    (hr : Reachable cap l s) (hw : s.waitReturned = true) :
    s.msgLoopDone = true ∧ s.errLoopDone = true
    ∧ s.msgQ = [] ∧ s.errQ = []
    ∧ s.writtenMsgs = s.enqMsgs.map (writerCallOfMsg l)
    ∧ s.writtenErrs = s.enqErrs.map (writerCallOfErr l) := by
  obtain ⟨hm, he, hmd, hed, hwimp, _, _⟩ := reachable_inv hr
  obtain ⟨hml, hel⟩ := hwimp hw
  obtain ⟨_, hmq⟩ := hmd hml
  obtain ⟨_, heq⟩ := hed hel
  refine ⟨hml, hel, hmq, heq, ?_, ?_⟩
  · simpa [hmq] using hm
  · simpa [heq] using he

theorem c1_shutdown_delivers_all_witness :
    finalSt.waitReturned = true
    ∧ (finalSt.msgLoopDone = true ∧ finalSt.errLoopDone = true
        ∧ finalSt.msgQ = [] ∧ finalSt.errQ = []
        ∧ finalSt.writtenMsgs = finalSt.enqMsgs.map (writerCallOfMsg lC)
        ∧ finalSt.writtenErrs
            = finalSt.enqErrs.map (writerCallOfErr lC)) :=
  ⟨rfl, c1_shutdown_delivers_all finalSt_reachable rfl⟩

/-- C2: per-queue FIFO: in any reachable state, the writer calls made
so far for a queue are exactly the first so-many completed enqueues of
that queue, in enqueue order; once the queue is drained they are all of
them, in order. -/
theorem c2_per_queue_fifo {cap : Nat} {l : Logrus} {s : EngineSt}
    (hr : Reachable cap l s) :
    s.writtenMsgs
        = (s.enqMsgs.map (writerCallOfMsg l)).take s.writtenMsgs.length
    ∧ s.writtenErrs
        = (s.enqErrs.map (writerCallOfErr l)).take s.writtenErrs.length
    ∧ (s.msgQ = [] → s.writtenMsgs = s.enqMsgs.map (writerCallOfMsg l))
    ∧ (s.errQ = [] →
        s.writtenErrs = s.enqErrs.map (writerCallOfErr l)) := by
  obtain ⟨hm, he, _, _, _, _, _⟩ := reachable_inv hr
  refine ⟨?_, ?_, ?_, ?_⟩
  · rw [← hm, List.take_left]
  · rw [← he, List.take_left]
  · intro h
    simpa [h] using hm
  · intro h
    simpa [h] using he

theorem c2_per_queue_fifo_witness :
    finalSt.writtenMsgs
        = (finalSt.enqMsgs.map (writerCallOfMsg lC)).take
            finalSt.writtenMsgs.length
    ∧ finalSt.writtenErrs
        = (finalSt.enqErrs.map (writerCallOfErr lC)).take
            finalSt.writtenErrs.length
    ∧ (finalSt.msgQ = [] →
        finalSt.writtenMsgs = finalSt.enqMsgs.map (writerCallOfMsg lC))
    ∧ (finalSt.errQ = [] →
        finalSt.writtenErrs = finalSt.enqErrs.map (writerCallOfErr lC)) :=
  c2_per_queue_fifo finalSt_reachable

/-- C3: the final field map handed to the writer merges explicit caller
fields (lowest), context-extracted fields (middle) and call-site fields
(highest): for every key, the merged value is the first defined value
in that precedence order, for message and error records alike; in
particular the call-site keys always carry the call-site values, even
when the caller supplied a field of the same name. -/
theorem c3_field_precedence (l : Logrus) (m : MsgDto) (e : ErrDto)
    (k : String) :
    (getField (writerCallOfMsg l m).fields k
      = firstSome (getField (callerFields m.CallSite) k)
          (firstSome (if k ∈ l.contextExtraFields then m.Ctx k else none)
            (getField m.Fields k)))
    ∧ (getField (writerCallOfErr l e).fields k
      = firstSome (getField (callerFields e.CallSite) k)
          (firstSome (if k ∈ l.contextExtraFields then e.Ctx k else none)
            (getField e.Fields k)))
    ∧ getField (writerCallOfMsg l m).fields "function"
        = some (Value.str m.CallSite.function)
    ∧ getField (writerCallOfMsg l m).fields "file"
        = some (Value.str m.CallSite.file)
    ∧ getField (writerCallOfMsg l m).fields "line"
        = some (Value.int (Int.ofNat m.CallSite.line)) := by
  have hmsg : ∀ k' : String,
      getField (writerCallOfMsg l m).fields k'
        = firstSome (getField (callerFields m.CallSite) k')
            (firstSome
              (if k' ∈ l.contextExtraFields then m.Ctx k' else none)
              (getField m.Fields k')) := by
    intro k'
    show getField
        (withFields (withFields m.Fields (l.fieldsFromContext m.Ctx))
          (callerFields m.CallSite)) k' = _
    rw [getField_withFields, getField_withFields,
      getField_fieldsFromContext]
  have herr :
      getField (writerCallOfErr l e).fields k
        = firstSome (getField (callerFields e.CallSite) k)
            (firstSome
              (if k ∈ l.contextExtraFields then e.Ctx k else none)
              (getField e.Fields k)) := by
    show getField
        (withFields (withFields e.Fields (l.fieldsFromContext e.Ctx))
          (callerFields e.CallSite)) k = _
    rw [getField_withFields, getField_withFields,
      getField_fieldsFromContext]
  refine ⟨hmsg k, herr, ?_, ?_, ?_⟩
  · rw [hmsg "function"]
    rfl
  · rw [hmsg "file"]
    rfl
  · rw [hmsg "line"]
    rfl

/-- C4 counterexample: the claim says the generic level-by-name
error-form operation also returns the error, but the Go signature of
`Log` (`logrus.go` line 143) declares no return value. -/
theorem c4_claim_counterexample : errorFormReturnsError "Log" = false :=
  rfl

/-- C4 (amended): each of the six fixed-severity error-form operations
returns the exact error value passed in, unchanged, regardless of
enqueue outcome; the generic level-by-name variant `Log` declares no
return value and only enqueues a record carrying the same error. -/
theorem c4_error_forms_amended :
    (∀ (ctx : Ctx) (err : GoError) (fields : Fields) (cs : CallSite),
      (Logrus.Debug ctx err fields cs).2 = err
      ∧ (Logrus.Info ctx err fields cs).2 = err
      ∧ (Logrus.Warning ctx err fields cs).2 = err
      ∧ (Logrus.Error ctx err fields cs).2 = err
      ∧ (Logrus.Fatal ctx err fields cs).2 = err
      ∧ (Logrus.Panic ctx err fields cs).2 = err)
    ∧ errorFormReturnsError "Debug" = true
    ∧ errorFormReturnsError "Info" = true
    ∧ errorFormReturnsError "Warning" = true
    ∧ errorFormReturnsError "Error" = true
    ∧ errorFormReturnsError "Fatal" = true
    ∧ errorFormReturnsError "Panic" = true
    ∧ errorFormReturnsError "Log" = false
    ∧ (∀ (ctx : Ctx) (err : GoError) (level : String) (fields : Fields)
        (cs : CallSite), (Logrus.Log ctx err level fields cs).Err = err) :=
  ⟨fun _ _ _ _ => ⟨rfl, rfl, rfl, rfl, rfl, rfl⟩,
    rfl, rfl, rfl, rfl, rfl, rfl, rfl, fun _ _ _ _ _ => rfl⟩

/-- C5: the engine constructed from a configuration creates both queues
with capacity exactly the configured buffer capacity; a send on a full
queue is not enabled (the producer blocks), every reachable state keeps
both queues within capacity, and after the drain loop frees a slot of a
full open queue a send is enabled again. -/
theorem c5_capacity_and_backpressure (cfg : Config) :
    (NewLogrus cfg).logger.msgCap = cfg.GetBufferCapacity
    ∧ (NewLogrus cfg).logger.errCap = cfg.GetBufferCapacity
    ∧ (∀ (l : Logrus) (s s' : EngineSt) (m : MsgDto),
        cfg.GetBufferCapacity ≤ s.msgQ.length →
        ¬ EngineStep cfg.GetBufferCapacity l s (Ev.enqMsg m) s')
    ∧ (∀ (l : Logrus) (s s' : EngineSt) (e : ErrDto),
        cfg.GetBufferCapacity ≤ s.errQ.length →
        ¬ EngineStep cfg.GetBufferCapacity l s (Ev.enqErr e) s')
    ∧ (∀ (l : Logrus) (s : EngineSt),
        Reachable cfg.GetBufferCapacity l s →
        s.msgQ.length ≤ cfg.GetBufferCapacity
        ∧ s.errQ.length ≤ cfg.GetBufferCapacity)
    ∧ (∀ (l : Logrus) (s : EngineSt) (m : MsgDto) (rest : List MsgDto)
        (m' : MsgDto), s.closed = false → s.msgQ = m :: rest →
        s.msgQ.length ≤ cfg.GetBufferCapacity →
        ∃ s', EngineStep cfg.GetBufferCapacity l s Ev.drainMsg s'
          ∧ ∃ s'',
            EngineStep cfg.GetBufferCapacity l s' (Ev.enqMsg m') s'') := by
  refine ⟨rfl, rfl, ?_, ?_, ?_, ?_⟩
  · intro l s s' m hfull hstep
    cases hstep with
    | enqMsg _ hopen hroom => omega
  · intro l s s' e hfull hstep
    cases hstep with
    | enqErr _ hopen hroom => omega
  · intro l s hr
    obtain ⟨_, _, _, _, _, hmc, hec⟩ := reachable_inv hr
    exact ⟨hmc, hec⟩
  · intro l s m rest m' hopen hq hle
    have hrest : rest.length < cfg.GetBufferCapacity := by
      rw [hq] at hle
      simp only [List.length_cons] at hle
      omega
    have hdrain :=
      @EngineStep.drainMsg cfg.GetBufferCapacity l s m rest hq
    refine ⟨_, hdrain, ?_⟩
    exact ⟨_, EngineStep.enqMsg _ m' hopen hrest⟩

theorem c5_capacity_and_backpressure_witness :
    (NewLogrus cfgC).logger.msgCap = cfgC.GetBufferCapacity
    ∧ cfgC.GetBufferCapacity ≤ fullSt.msgQ.length
    ∧ ¬ EngineStep cfgC.GetBufferCapacity lC fullSt (Ev.enqMsg mC)
        fullSt :=
  ⟨(c5_capacity_and_backpressure cfgC).1, Nat.le_refl 1,
    (c5_capacity_and_backpressure cfgC).2.2.1 lC fullSt fullSt mC
      (Nat.le_refl 1)⟩

/-- C6: the context-extracted field map contains exactly the configured
keys whose context value is non-absent, each bound under the same key
to that value; unconfigured keys are never copied and absent configured
keys produce no entry. -/
theorem c6_context_extraction (l : Logrus) (ctx : Ctx) (k : String) :
    getField (l.fieldsFromContext ctx) k
      = if k ∈ l.contextExtraFields then ctx k else none :=
  getField_fieldsFromContext l ctx k

/-- C7: evaluation of the resolver at a logs path that already names a
file (`app.json`): the claim says such a path is opened as-is, but the
code appends `app.log` anyway, because the arguments of
`strings.Contains` at `logrus.go` line 174 are swapped and the dot
check never fires. -/
theorem c7_always_appends_default_file :
    getOutput "somefile" "app.json" ⟨"/app", []⟩
      = { sink := SinkHandle.fileHandle "/app/app.json/app.log"
          opened := some ("/app/app.json/app.log", logFileFlags)
          mkdirAll := some ("/app/app.json", 493)
          err := none } := by
  rfl

/-- C8 counterexample: the resolved path and created directory do not
depend on the non-reserved output value at all — two different output
names resolve identically, and the directory created is the configured
logs directory, not the output value. -/
theorem c8_claim_counterexample :
    getOutput "mydirA" "var/log" ⟨"/app", []⟩
        = getOutput "mydirB" "var/log" ⟨"/app", []⟩
    ∧ (getOutput "mydirA" "var/log" ⟨"/app", []⟩).mkdirAll
        = some ("/app/var/log", 493) :=
  ⟨rfl, rfl⟩

/-- C8 (amended): for every non-reserved output name, the resolver
ignores the output value itself and treats the configured logs
directory as a relative directory under the working directory; it
appends the default file name, creates the parent directory (with
ancestors) when it does not already exist, and opens the resulting file
with create, append, read-write access. -/
theorem c8_resolver_amended (output logsDir : String) (fs : FS)
    (h1 : ¬ output = Stdout) (h2 : ¬ output = Stderr)
    (h3 : ¬ output = DevNull) (h4 : ¬ output = "")
    (habs : fs.cwd.toList.head? = some '/') :
    getOutput output logsDir fs
      = { sink := SinkHandle.fileHandle
            (goJoin (goJoin fs.cwd logsDir) "app.log")
          opened :=
            some (goJoin (goJoin fs.cwd logsDir) "app.log", logFileFlags)
          mkdirAll :=
            if goDir (goJoin (goJoin fs.cwd logsDir) "app.log")
                ∈ fs.existingDirs
            then none
            else some
              (goDir (goJoin (goJoin fs.cwd logsDir) "app.log"), 493)
          err := none } := by
  have hcont : strContains "." (goJoin fs.cwd logsDir) = false :=
    strContains_dot_eq_false _ (goJoin_head _ _ habs)
  simp [getOutput, h1, h2, h3, h4, hcont]

theorem c8_resolver_amended_witness :
    (¬ "mydir" = Stdout) ∧ (¬ ("mydir" : String) = "")
    ∧ (FS.mk "/app" []).cwd.toList.head? = some '/'
    ∧ getOutput "mydir" "var/log" ⟨"/app", []⟩
        = { sink := SinkHandle.fileHandle "/app/var/log/app.log"
            opened := some ("/app/var/log/app.log", logFileFlags)
            mkdirAll := some ("/app/var/log", 493)
            err := none } :=
  ⟨by decide, by decide, by decide,
    c8_resolver_amended "mydir" "var/log" ⟨"/app", []⟩ (by decide)
      (by decide) (by decide) (by decide) (by decide)⟩

/-- C9: resolving `stdout` returns the standard output stream,
`stderr` the standard error stream, and `/dev/null` or the empty string
the `/dev/null` discard sink opened write-only; no directory is created
in any of these cases and no error is produced for the standard
streams. -/
theorem c9_reserved_names (logsDir : String) (fs : FS) :
    getOutput Stdout logsDir fs
        = { sink := SinkHandle.stdoutHandle, opened := none
            mkdirAll := none, err := none }
    ∧ getOutput Stderr logsDir fs
        = { sink := SinkHandle.stderrHandle, opened := none
            mkdirAll := none, err := none }
    ∧ getOutput DevNull logsDir fs
        = { sink := SinkHandle.fileHandle DevNull
            opened := some (DevNull, devNullFlags), mkdirAll := none
            err := none }
    ∧ getOutput "" logsDir fs
        = { sink := SinkHandle.fileHandle DevNull
            opened := some (DevNull, devNullFlags), mkdirAll := none
            err := none } :=
  ⟨rfl, rfl, rfl, rfl⟩

/-- C10: engine construction never fails: the error slot of the
`NewLogrus` result is `nil` for every configuration. -/
theorem c10_construction_never_fails (cfg : Config) :
    (NewLogrus cfg).err = none :=
  rfl

end Logger
